import Mathlib

/-!
Verification of the data-acquisition and projection pipeline of `app.py`
(single-page market dashboard built on a market-data provider).

The embedding models, over exact rational arithmetic and character lists:
* the symbol normalizer (line 107 `.upper()`, line 59
  `s.replace('.T', '').split('-')[0]`),
* the FX helper `get_fx_rate` (lines 26-33),
* the tiered resolver `get_safe_data` (lines 36-66),
* the projection formulas of `calc_metrics` (lines 122-128); the `**`
  operator on a negative base with a fractional exponent yields a complex
  number in Python, so the CAGR value is modelled in `ℂ`,
* the pandas descending sort of line 131,
* the session-state target/weight defaulting of lines 88-89.

Provider calls can raise; raising is modelled as `Except Unit`.
-/

namespace StockApp

open List

/-- Python `s.replace('.T', '')`: scan left to right, delete each
non-overlapping occurrence of the two-character pattern `.T`, resuming the
scan right after a deleted occurrence. -/
def removeDotT : List Char → List Char
  | '.' :: 'T' :: rest => removeDotT rest
  | c :: rest => c :: removeDotT rest
  | [] => []

/-- Does the list contain the substring `.T`? (Python `'.T' in s`.) -/
def hasDotT : List Char → Bool
  | '.' :: 'T' :: _ => true
  | _ :: rest => hasDotT rest
  | [] => false

/-- Python `s.split('-')[0]`: the prefix before the first `-`. -/
def takeUntilDash (s : List Char) : List Char := s.takeWhile (· ≠ '-')

/-- Line 59: `s.replace('.T', '').split('-')[0]`. -/
def displayOf (s : List Char) : List Char := takeUntilDash (removeDotT s)

/-- The symbol normalizer of the claims: line 107's `.upper()` on the raw
entry followed by line 59's display transform. -/
def normalize (s : List Char) : List Char := displayOf (s.map Char.toUpper)

/-- The provider boundary (`yfinance`): each request either returns data or
raises; raising is `Except.error ()`. `fastPrice` and `fastMC` are the two
`fast_info` key accesses, `history1d` is the latest close of
`history(period="1d")` (raises when absent), and `info` returns the
optional `marketCap` and `currency` fields of `ticker.info`. -/
structure Provider where
  tickerRaises : List Char → Bool
  fastPrice : List Char → Except Unit ℚ
  fastMC : List Char → Except Unit ℚ
  history1d : List Char → Except Unit ℚ
  info : List Char → Except Unit (Option ℚ × Option String)

/-- Tier 1 (lines 43-47): `fast_info['lastPrice']`, `fast_info['marketCap']`,
`ticker.info.get('currency', 'USD')`; a raise in any of the three calls
fails the tier. -/
def tier1 (P : Provider) (s : List Char) : Except Unit (ℚ × ℚ × String) := do
  let price ← P.fastPrice s
  let mc ← P.fastMC s
  let (_, c) ← P.info s
  pure (price, mc, c.getD "USD")

/-- Tier 2 (lines 48-54): latest close of `history(period="1d")`,
`info.get('marketCap', 0)`, `info.get('currency', 'USD')`. -/
def tier2 (P : Provider) (s : List Char) : Except Unit (ℚ × ℚ × String) := do
  let price ← P.history1d s
  let (mc, c) ← P.info s
  pure (price, mc.getD 0, c.getD "USD")

/-- The ticker `get_fx_rate` looks up: `f"{from_currency}USD=X"`. -/
def fxTicker (c : String) : List Char := (c ++ "USD=X").toList

/-- Lines 26-33: `1.0` for USD; otherwise the FX pair's
`fast_info['lastPrice']`; `1.0` if anything raises (`except: return 1.0`). -/
def get_fx_rate (P : Provider) (from_currency : String) : ℚ :=
  if from_currency = "USD" then 1
  else if P.tickerRaises (fxTicker from_currency) then 1
  else match P.fastPrice (fxTicker from_currency) with
    | .ok rate => rate
    | .error _ => 1

/-- Line 57: `fx = get_fx_rate(currency) if convert_to_usd else 1.0`. -/
def fxApplied (P : Provider) (convert_to_usd : Bool) (c : String) : ℚ :=
  if convert_to_usd then get_fx_rate P c else 1

/-- One appended result dict (lines 58-64). -/
structure Row where
  Symbol : List Char
  Raw : List Char
  Price : ℚ
  MC_B : ℚ
  Curr : String
deriving DecidableEq, Repr

/-- Lines 56-64: the row appended for a tier value `(price, mc, currency)`. -/
def rowOf (P : Provider) (convert_to_usd : Bool) (s : List Char)
    (v : ℚ × ℚ × String) : Row :=
  { Symbol := displayOf s
    Raw := s
    Price := v.1 * fxApplied P convert_to_usd v.2.2
    MC_B := v.2.1 / 1000000000 * fxApplied P convert_to_usd v.2.2
    Curr := if convert_to_usd then "USD" else v.2.2 }

/-- Lines 36-66: per symbol, try tier 1; on a raise try tier 2; a raise
anywhere else in the loop body skips just that symbol
(`except: continue`). -/
def get_safe_data (P : Provider) (symbol_list : List (List Char))
    (convert_to_usd : Bool) : List Row :=
  symbol_list.filterMap fun s =>
    if P.tickerRaises s then none
    else
      match (match tier1 P s with
             | .ok v => .ok v
             | .error _ => tier2 P s : Except Unit (ℚ × ℚ × String)) with
      | .ok v => some (rowOf P convert_to_usd s v)
      | .error _ => none

/-- A symbol that resolves nothing: the `yf.Ticker` constructor raises, or
both tiers raise. -/
def resolutionFails (P : Provider) (s : List Char) : Prop :=
  P.tickerRaises s = true ∨ (tier1 P s = .error () ∧ tier2 P s = .error ())

/-- Line 126: `((t_mc / row['MC_B'])**(1/5) - 1) * 100 if row['MC_B'] > 0
else 0`. Python `**` on a negative float base with exponent `1/5` returns a
complex number, so the value lives in `ℂ` (real-valued whenever the ratio
is nonnegative). -/
noncomputable def calc_cagr (mc_b t_mc : ℚ) : ℂ :=
  if mc_b > 0 then (((t_mc / mc_b : ℚ) : ℂ) ^ ((1 : ℂ) / 5) - 1) * 100 else 0

/-- Line 127: `row['Price'] * (t_mc / row['MC_B']) if row['MC_B'] > 0
else 0`. -/
def calc_t_price (price mc_b t_mc : ℚ) : ℚ :=
  if mc_b > 0 then price * (t_mc / mc_b) else 0

/-- One row of the metrics dataframe as the ranking step sees it: its
symbol and its `CAGR (%)` sort key. -/
structure RankedRow where
  sym : String
  cagr : ℚ
deriving DecidableEq, Repr

/-- The comparison on the `CAGR (%)` column. -/
def cagrLe (a b : RankedRow) : Bool := decide (a.cagr ≤ b.cagr)

/-- Line 131, `df_raw.sort_values('CAGR (%)', ascending=False)`: for a
descending sort pandas `nargsort` reverses the value array and the index
array, runs an ascending argsort — stable at dashboard input sizes, where
numpy's introsort runs its insertion-sort branch — and reverses the
resulting indexer again, so the double reversal yields a stable
descending sort. -/
def sort_values_desc (l : List RankedRow) : List RankedRow :=
  (l.reverse.mergeSort cagrLe).reverse

/-- Python `round(q, 0)` on an exactly-representable value: round half to
even, to a whole number. -/
def pyRound0 (q : ℚ) : ℚ :=
  let f : ℤ := ⌊q⌋
  if q - f < 1/2 then f
  else if q - f > 1/2 then f + 1
  else if f % 2 = 0 then f else f + 1

/-- Line 88: `if sym not in st.session_state.targets:
st.session_state.targets[sym] = float(round(curr_mc * 5, 0))`. The dict is
modelled as an association list. -/
def observeTarget (targets : List (List Char × ℚ)) (sym : List Char)
    (curr_mc : ℚ) : List (List Char × ℚ) :=
  match targets.lookup sym with
  | some _ => targets
  | none => (sym, pyRound0 (curr_mc * 5)) :: targets

/-- Line 89: `if sym not in st.session_state.weights:
st.session_state.weights[sym] = 0.0`. -/
def observeWeight (weights : List (List Char × ℚ)) (sym : List Char) :
    List (List Char × ℚ) :=
  match weights.lookup sym with
  | some _ => weights
  | none => (sym, 0) :: weights

/-- A provider whose fast-snapshot tier answers with price 0 while the
history tier would answer with the positive price 5. -/
def zeroPriceProvider : Provider where
  tickerRaises := fun _ => false
  fastPrice := fun _ => .ok 0
  fastMC := fun _ => .ok 2000000000
  history1d := fun _ => .ok 5
  info := fun _ => .ok (some 3000000000, some "USD")

/-- A provider whose fast-snapshot tier raises and whose history tier
succeeds. -/
def histProvider : Provider where
  tickerRaises := fun _ => false
  fastPrice := fun _ => .error ()
  fastMC := fun _ => .ok 0
  history1d := fun _ => .ok 5
  info := fun _ => .ok (some 3000000000, some "EUR")

/-- A provider on which every request raises. -/
def deadProvider : Provider where
  tickerRaises := fun _ => true
  fastPrice := fun _ => .error ()
  fastMC := fun _ => .error ()
  history1d := fun _ => .error ()
  info := fun _ => .error ()

/-- A provider that reports a zero last price for every FX pair. -/
def fxZeroProvider : Provider where
  tickerRaises := fun _ => false
  fastPrice := fun _ => .ok 0
  fastMC := fun _ => .error ()
  history1d := fun _ => .error ()
  info := fun _ => .ok (none, none)

/-- A provider quoting a JPY-denominated asset whose FX pair lookup
raises. -/
def jpProvider : Provider where
  tickerRaises := fun _ => false
  fastPrice := fun s => if s = fxTicker "JPY" then .error () else .ok 7
  fastMC := fun _ => .ok 9000000000
  history1d := fun _ => .error ()
  info := fun _ => .ok (none, some "JPY")

theorem removeDotT_sublist : ∀ s : List Char, removeDotT s <+ s := by
  intro s
  induction s using removeDotT.induct with
  | case1 rest ih =>
    exact (removeDotT.eq_1 rest ▸ ih).trans
      ((List.sublist_cons_self _ _).trans (List.sublist_cons_self _ _))
  | case2 c rest h ih =>
    rw [removeDotT.eq_2 c rest h]
    exact ih.cons₂ c
  | case3 => simp [removeDotT]

theorem removeDotT_eq_self : ∀ s : List Char, hasDotT s = false →
    removeDotT s = s := by
  intro s
  induction s using removeDotT.induct with
  | case1 rest ih => intro h; rw [hasDotT] at h; cases h
  | case2 c rest h ih =>
    intro hh
    rw [hasDotT.eq_2 c rest h] at hh
    rw [removeDotT.eq_2 c rest h, ih hh]
  | case3 => intro _; rfl

theorem toNat_ofNat_valid {n : Nat} (h : n.isValidChar) :
    (Char.ofNat n).toNat = n := by
  rw [Char.ofNat, dif_pos h]
  rfl

theorem toUpper_toUpper (c : Char) : c.toUpper.toUpper = c.toUpper := by
  unfold Char.toUpper
  by_cases h : c.toNat ≥ 97 ∧ c.toNat ≤ 122
  · rw [if_pos h]
    have hv : Nat.isValidChar (c.toNat - 32) := Or.inl (by omega)
    rw [if_neg]
    rw [toNat_ofNat_valid hv]
    omega
  · rw [if_neg h, if_neg h]

theorem takeWhile_eq_self {p : Char → Bool} : ∀ {l : List Char},
    (∀ c ∈ l, p c) → l.takeWhile p = l := by
  intro l h
  induction l with
  | nil => rfl
  | cons c t ih =>
    rw [List.takeWhile_cons, if_pos (h c (List.mem_cons_self c t))]
    rw [ih (fun x hx => h x (List.mem_cons_of_mem c hx))]

theorem mem_normalize_toUpper {s : List Char} {c : Char}
    (h : c ∈ normalize s) : c.toUpper = c := by
  have h1 : c ∈ removeDotT (s.map Char.toUpper) :=
    (List.takeWhile_sublist _).subset h
  have h2 : c ∈ s.map Char.toUpper := (removeDotT_sublist _).subset h1
  obtain ⟨d, _, rfl⟩ := List.mem_map.mp h2
  exact toUpper_toUpper d

theorem normalize_no_dash {s : List Char} {c : Char} (h : c ∈ normalize s) :
    c ≠ '-' := by
  have := List.mem_takeWhile_imp (p := (· ≠ '-')) h
  simpa using this

theorem map_toUpper_normalize (s : List Char) :
    (normalize s).map Char.toUpper = normalize s := by
  have h : ∀ c ∈ normalize s, c.toUpper = c :=
    fun c hc => mem_normalize_toUpper hc
  calc (normalize s).map Char.toUpper = (normalize s).map id :=
        List.map_congr_left h
    _ = normalize s := List.map_id _

theorem cagrLe_trans : ∀ a b c : RankedRow,
    cagrLe a b → cagrLe b c → cagrLe a c := by
  intro a b c hab hbc
  simp only [cagrLe, decide_eq_true_eq] at *
  exact le_trans hab hbc

theorem cagrLe_total : ∀ a b : RankedRow, cagrLe a b || cagrLe b a := by
  intro a b
  simp only [cagrLe, Bool.or_eq_true, decide_eq_true_eq]
  exact le_total _ _

theorem get_safe_data_batch (P : Provider) (conv : Bool) :
    ∀ l : List (List Char),
      get_safe_data P l conv
        = (l.map (fun s => get_safe_data P [s] conv)).flatten := by
  intro l
  induction l with
  | nil => rfl
  | cons s t ih =>
    simp only [get_safe_data, List.filterMap_cons, List.map_cons,
      List.flatten_cons] at ih ⊢
    cases h : (if P.tickerRaises s then none
      else
        match (match tier1 P s with
               | .ok v => .ok v
               | .error _ => tier2 P s : Except Unit (ℚ × ℚ × String)) with
        | .ok v => some (rowOf P conv s v)
        | .error _ => none : Option Row) <;>
      simp [h, ih]

theorem get_safe_data_of_fails (P : Provider) (s : List Char) (conv : Bool)
    (h : resolutionFails P s) : get_safe_data P [s] conv = [] := by
  rcases h with h | ⟨h1, h2⟩
  · simp [get_safe_data, h]
  · cases hr : P.tickerRaises s <;> simp [get_safe_data, hr, h1, h2]

/-- C1 (amended): the resolver runs a two-tier chain. A ticker-constructor
raise excludes the symbol; otherwise a tier-1 success is returned as-is
(whatever its price); tier 2 is attempted exactly when tier 1 raises, and
its success is returned as-is; the symbol is excluded exactly when both
tiers raise. -/
theorem get_safe_data_two_tier (P : Provider) (s : List Char) (conv : Bool) :
    (P.tickerRaises s = true → get_safe_data P [s] conv = []) ∧
    (P.tickerRaises s = false → ∀ v, tier1 P s = .ok v →
      get_safe_data P [s] conv = [rowOf P conv s v]) ∧
    (P.tickerRaises s = false → tier1 P s = .error () →
      ∀ v, tier2 P s = .ok v →
        get_safe_data P [s] conv = [rowOf P conv s v]) ∧
    (P.tickerRaises s = false → tier1 P s = .error () →
      tier2 P s = .error () → get_safe_data P [s] conv = []) := by
  refine ⟨?_, ?_, ?_, ?_⟩
  · intro h; simp [get_safe_data, h]
  · intro h v hv; simp [get_safe_data, h, hv]
  · intro h h1 v hv; simp [get_safe_data, h, h1, hv]
  · intro h h1 h2; simp [get_safe_data, h, h1, h2]

/-- C1 witness: on a provider whose fast tier raises, the output is exactly
the history tier's row. -/
theorem get_safe_data_two_tier_witness :
    get_safe_data histProvider ["SAP".toList] false =
      [rowOf histProvider false "SAP".toList (5, 3000000000, "EUR")] :=
  (get_safe_data_two_tier histProvider "SAP".toList false).2.2.1 rfl rfl _ rfl

/-- C1 counterexample: tier 1 yields price 0 (not strictly positive) while
tier 2 would yield the positive price 5, yet the resolver keeps the tier-1
row with price 0 — it neither falls through to tier 2 nor excludes the
symbol. -/
theorem get_safe_data_keeps_nonpositive_tier1_price :
    (get_safe_data zeroPriceProvider ["AAA".toList] false).map Row.Price
      = [0] ∧
    tier2 zeroPriceProvider "AAA".toList = .ok (5, 3000000000, "USD") ∧
    ¬ ((0 : ℚ) < 0) := by
  refine ⟨?_, rfl, by norm_num⟩
  show [(0 : ℚ) * fxApplied zeroPriceProvider false "USD"] = [0]
  norm_num [fxApplied]

/-- C2: with a strictly positive current market cap the engine returns
`target_price = price * (target_mc / current_mc)` and
`cagr = ((target_mc / current_mc) ** (1/5) - 1) * 100`; with a
non-positive current market cap it returns the substituted zero result
instead of raising a division error. -/
theorem calc_metrics_formulas (price mc_b t_mc : ℚ) :
    (0 < mc_b →
      calc_t_price price mc_b t_mc = price * (t_mc / mc_b) ∧
      calc_cagr mc_b t_mc
        = (((t_mc / mc_b : ℚ) : ℂ) ^ ((1 : ℂ) / 5) - 1) * 100) ∧
    (mc_b ≤ 0 →
      calc_cagr mc_b t_mc = 0 ∧ calc_t_price price mc_b t_mc = 0) := by
  constructor
  · intro h
    rw [calc_t_price, if_pos h, calc_cagr, if_pos h]
    exact ⟨rfl, rfl⟩
  · intro h
    rw [calc_cagr, if_neg (not_lt.mpr h), calc_t_price, if_neg (not_lt.mpr h)]
    exact ⟨rfl, rfl⟩

/-- C2 witness: the spec's concrete scenario, price 150 and market caps
2400 → 4800. -/
theorem calc_metrics_formulas_witness :
    calc_t_price 150 2400 4800 = 150 * ((4800 : ℚ) / 2400) ∧
    calc_cagr 2400 4800
      = ((((4800 : ℚ) / 2400 : ℚ) : ℂ) ^ ((1 : ℂ) / 5) - 1) * 100 :=
  (calc_metrics_formulas 150 2400 4800).1 (by norm_num)

/-- C3 (code bug): at current market cap 1 and target market cap -1 the
growth ratio is -1, and the code exponentiates it without clamping or
rejecting: the resulting cagr has strictly positive imaginary part, i.e.
it is silently a complex number. -/
theorem calc_cagr_complex_on_negative_ratio : 0 < (calc_cagr 1 (-1)).im := by
  have h1 : ((-1 : ℚ) / 1 : ℚ) = -1 := by norm_num
  have h2 : calc_cagr 1 (-1) = (((-1 : ℂ)) ^ ((1 : ℂ) / 5) - 1) * 100 := by
    rw [calc_cagr, if_pos (by norm_num : (0 : ℚ) < 1), h1]
    push_cast
    ring_nf
  rw [h2]
  rw [Complex.cpow_def_of_ne_zero (by norm_num : (-1 : ℂ) ≠ 0)]
  rw [Complex.log_neg_one]
  have h3 : (Real.pi : ℂ) * Complex.I * ((1 : ℂ) / 5)
      = ((Real.pi / 5 : ℝ) : ℂ) * Complex.I := by
    push_cast
    ring
  rw [h3, Complex.exp_mul_I]
  have h4 : Complex.cos ((Real.pi / 5 : ℝ) : ℂ)
      = ((Real.cos (Real.pi / 5) : ℝ) : ℂ) := (Complex.ofReal_cos _).symm
  have h5 : Complex.sin ((Real.pi / 5 : ℝ) : ℂ)
      = ((Real.sin (Real.pi / 5) : ℝ) : ℂ) := (Complex.ofReal_sin _).symm
  rw [h4, h5]
  have h7 : (((((Real.cos (Real.pi / 5) : ℝ) : ℂ)
        + ((Real.sin (Real.pi / 5) : ℝ) : ℂ) * Complex.I) - 1) * 100).im
      = Real.sin (Real.pi / 5) * 100 := by
    simp only [Complex.mul_im, Complex.sub_im, Complex.add_im,
      Complex.sub_re, Complex.add_re, Complex.ofReal_im, Complex.ofReal_re,
      Complex.I_im, Complex.I_re, Complex.mul_re, Complex.one_im,
      Complex.one_re, Complex.im_ofNat, Complex.re_ofNat]
    ring
  rw [h7]
  have h6 : 0 < Real.sin (Real.pi / 5) :=
    Real.sin_pos_of_pos_of_lt_pi (by positivity)
      (by linarith [Real.pi_pos])
  exact mul_pos h6 (by norm_num)

/-- C4: the ranking is a stable sort by cagr descending: the output is a
permutation of the input, each element's cagr is at least the next
one's, and two rows with exactly equal cagr keep their original relative
input order; rank is positional, 1..N in output order. -/
theorem sort_values_desc_ranking (l : List RankedRow) :
    (sort_values_desc l).Perm l ∧
    (sort_values_desc l).Pairwise (fun a b => b.cagr ≤ a.cagr) ∧
    (∀ a b : RankedRow, [a, b] <+ l → a.cagr = b.cagr →
      [a, b] <+ sort_values_desc l) := by
  refine ⟨?_, ?_, ?_⟩
  · exact (List.reverse_perm _).trans
      ((List.mergeSort_perm l.reverse _).trans (List.reverse_perm l))
  · rw [sort_values_desc, List.pairwise_reverse]
    have h := List.sorted_mergeSort cagrLe_trans cagrLe_total l.reverse
    exact h.imp (fun hab => by simpa [cagrLe] using hab)
  · intro a b hab heq
    have hrev : [b, a] <+ l.reverse := by
      simpa using hab.reverse
    have hp : List.Pairwise (fun x y => cagrLe x y) [b, a] := by
      simp [cagrLe, heq]
    have h := List.sublist_mergeSort cagrLe_trans cagrLe_total hp hrev
    simpa [sort_values_desc] using h.reverse

/-- C4 witness: two equal-cagr rows keep their input order through the
sort. -/
theorem sort_values_desc_ranking_witness :
    [(⟨"A", 1⟩ : RankedRow), ⟨"B", 1⟩]
      <+ sort_values_desc [⟨"A", 1⟩, ⟨"B", 1⟩] :=
  (sort_values_desc_ranking [⟨"A", 1⟩, ⟨"B", 1⟩]).2.2 ⟨"A", 1⟩ ⟨"B", 1⟩
    (List.Sublist.refl _) rfl

/-- C5: resolution is per-symbol — the batch result is the concatenation
of the per-symbol results, so one symbol's outcome never affects the
others — and a symbol on which the provider fails (constructor raise, or
both tiers raise) contributes nothing rather than an exception; the
resolver is a total function, so no provider exception escapes it. -/
theorem get_safe_data_per_symbol_isolation (P : Provider) (conv : Bool)
    (l : List (List Char)) (s : List Char) :
    get_safe_data P l conv
      = (l.map (fun x => get_safe_data P [x] conv)).flatten ∧
    (resolutionFails P s → get_safe_data P [s] conv = []) :=
  ⟨get_safe_data_batch P conv l, get_safe_data_of_fails P s conv⟩

/-- C5 witness: a symbol on which every provider call raises is simply
absent from the result. -/
theorem get_safe_data_per_symbol_isolation_witness :
    get_safe_data deadProvider ["AAPL".toList] false = [] :=
  (get_safe_data_per_symbol_isolation deadProvider false
    ["AAPL".toList] "AAPL".toList).2 (Or.inl rfl)

/-- C6 (amended): the FX rate is exactly 1 for USD, exactly 1 when
conversion is disabled, and exactly 1 whenever the lookup of
`<CCY>USD=X` raises; otherwise it is the provider's reported last price,
returned without a positivity check. -/
theorem get_fx_rate_spec (P : Provider) (c : String) (b : Bool) (r : ℚ) :
    (c = "USD" → get_fx_rate P c = 1) ∧
    (b = false → fxApplied P b c = 1) ∧
    (P.tickerRaises (fxTicker c) = true → get_fx_rate P c = 1) ∧
    (P.fastPrice (fxTicker c) = .error () → get_fx_rate P c = 1) ∧
    (c ≠ "USD" → P.tickerRaises (fxTicker c) = false →
      P.fastPrice (fxTicker c) = .ok r → get_fx_rate P c = r) := by
  refine ⟨?_, ?_, ?_, ?_, ?_⟩
  · intro h; simp [get_fx_rate, h]
  · intro h; simp [fxApplied, h]
  · intro h
    by_cases hc : c = "USD" <;> simp [get_fx_rate, hc, h]
  · intro h
    by_cases hc : c = "USD" <;> by_cases hr : P.tickerRaises (fxTicker c) <;>
      simp [get_fx_rate, hc, hr, h]
  · intro hc hr h
    simp [get_fx_rate, hc, hr, h]

/-- C6 witness: the USD branch returns exactly 1. -/
theorem get_fx_rate_spec_witness : get_fx_rate fxZeroProvider "USD" = 1 :=
  (get_fx_rate_spec fxZeroProvider "USD" false 0).1 rfl

/-- C6 counterexample: a provider that reports a zero last price for the
FX pair makes `get_fx_rate` return 0 — not a positive rate, and not 1 —
because the successful lookup's value is passed through unchecked. -/
theorem get_fx_rate_zero_rate :
    get_fx_rate fxZeroProvider "JPY" = 0 ∧ ¬ ((0 : ℚ) < 0) := by
  refine ⟨rfl, by norm_num⟩

/-- C7 (amended): the normalizer uppercases the input, removes every
occurrence of the substring `.T` (only the Tokyo suffix — not a general
trailing `.XX` suffix, and not only at the end), then truncates at the
first `-`; it never fails, and when the uppercased input contains no `.T`
and no `-` it is returned unchanged. The spec's three examples hold. -/
theorem normalize_spec (s : List Char) :
    (hasDotT (s.map Char.toUpper) = false → '-' ∉ s.map Char.toUpper →
      normalize s = s.map Char.toUpper) ∧
    normalize "3350.T".toList = "3350".toList ∧
    normalize "BTC-USD".toList = "BTC".toList ∧
    normalize "AAPL".toList = "AAPL".toList := by
  refine ⟨?_, by decide, by decide, by decide⟩
  intro h1 h2
  rw [normalize, displayOf, removeDotT_eq_self _ h1, takeUntilDash]
  exact takeWhile_eq_self (fun c hc => by
    simp only [ne_eq, decide_eq_true_eq]
    intro heq
    exact h2 (heq ▸ hc))

/-- C7 witness: a plain symbol with no suffix is returned as its own
uppercase. -/
theorem normalize_spec_witness :
    normalize "AAPL".toList = "AAPL".toList.map Char.toUpper :=
  (normalize_spec "AAPL".toList).1 (by decide) (by decide)

/-- C7 counterexample: `"3350.TO"` carries the trailing exchange suffix
`.TO`, so the claim requires display `"3350"`; the code removes the
embedded `.T` instead and produces `"3350O"`. -/
theorem normalize_keeps_non_tokyo_suffix :
    normalize "3350.TO".toList = "3350O".toList ∧
    "3350O".toList ≠ "3350".toList := by
  constructor <;> decide

/-- C8 (amended): normalization is idempotent on every input whose
normalized form contains no `.T` substring; removing `.T` occurrences can
splice a new `.T` together, and on such inputs a second pass differs. -/
theorem normalize_idem_of_no_dotT (s : List Char)
    (h : hasDotT (normalize s) = false) :
    normalize (normalize s) = normalize s := by
  calc normalize (normalize s)
      = takeUntilDash (removeDotT ((normalize s).map Char.toUpper)) := rfl
    _ = takeUntilDash (removeDotT (normalize s)) := by
        rw [map_toUpper_normalize s]
    _ = takeUntilDash (normalize s) := by rw [removeDotT_eq_self _ h]
    _ = normalize s := takeWhile_eq_self (fun c hc => by
        simpa using normalize_no_dash (s := s) hc)

/-- C8 witness: idempotence at the crypto-pair example. -/
theorem normalize_idem_witness :
    normalize (normalize "BTC-USD".toList) = normalize "BTC-USD".toList :=
  normalize_idem_of_no_dotT "BTC-USD".toList (by decide)

/-- C8 counterexample: `"..TT"` normalizes to `".T"` (deleting the middle
`.T` splices a new one), and a second application deletes that too, so
`normalize (normalize x) ≠ normalize x`. -/
theorem normalize_not_idempotent :
    normalize (normalize "..TT".toList) ≠ normalize "..TT".toList := by
  decide

/-- C9 (amended): a symbol observed without a known prior target gets
target market cap `round(5 * current, 0)` — 5 times the current market
cap rounded half-to-even to a whole number, not exactly 5 times — and
weight 0. -/
theorem observe_defaults (targets weights : List (List Char × ℚ))
    (sym : List Char) (curr_mc : ℚ)
    (ht : targets.lookup sym = none) (hw : weights.lookup sym = none) :
    (observeTarget targets sym curr_mc).lookup sym
        = some (pyRound0 (curr_mc * 5)) ∧
    (observeWeight weights sym).lookup sym = some 0 := by
  rw [observeTarget, ht, observeWeight, hw]
  constructor <;> simp [List.lookup]

/-- C9 witness: defaults inserted for a fresh symbol. -/
theorem observe_defaults_witness :
    (observeTarget [] "NVDA".toList 3).lookup "NVDA".toList
        = some (pyRound0 (3 * 5)) ∧
    (observeWeight [] "NVDA".toList).lookup "NVDA".toList = some 0 :=
  observe_defaults [] [] "NVDA".toList 3 rfl rfl

/-- C9 counterexample: at current market cap 1/10 billion the default
stored is `round(0.5) = 0`, not the exact five-fold value 1/2. -/
theorem observe_default_rounds :
    (observeTarget [] "ABC".toList (1/10)).lookup "ABC".toList = some 0 ∧
    ((1 : ℚ)/10) * 5 ≠ 0 := by
  have hf : ⌊((1 : ℚ)/10 * 5)⌋ = 0 := by norm_num
  have hp : pyRound0 ((1 : ℚ)/10 * 5) = 0 := by
    rw [pyRound0]
    norm_num [hf]
  constructor
  · show some (pyRound0 ((1 : ℚ)/10 * 5)) = some 0
    rw [hp]
  · norm_num

/-- C10: with conversion enabled every resolved row's currency field is
the constant `"USD"`; in particular when the quote's native currency is
not USD and the FX lookup fails, the identity rate 1 is applied — the
price and market cap stay in the native currency — yet the row is still
labeled `"USD"`. -/
theorem curr_labeled_usd (P : Provider) (l : List (List Char)) :
    (∀ r ∈ get_safe_data P l true, r.Curr = "USD") ∧
    (∀ (s : List Char) (p mc : ℚ) (c : String),
      P.tickerRaises s = false → tier1 P s = .ok (p, mc, c) → c ≠ "USD" →
      P.tickerRaises (fxTicker c) = false →
      P.fastPrice (fxTicker c) = .error () →
      get_safe_data P [s] true =
        [{ Symbol := displayOf s, Raw := s, Price := p,
           MC_B := mc / 1000000000, Curr := "USD" }]) := by
  constructor
  · intro r hr
    rw [get_safe_data] at hr
    obtain ⟨s, _, hmap⟩ := List.mem_filterMap.mp hr
    by_cases hR : P.tickerRaises s
    · simp [hR] at hmap
    · rw [if_neg (by simp [hR])] at hmap
      rcases hch : (match tier1 P s with
             | .ok v => .ok v
             | .error _ => tier2 P s : Except Unit (ℚ × ℚ × String)) with v | e
      · rw [hch] at hmap; cases hmap
      · rw [hch] at hmap
        cases hmap
        rfl
  · intro s p mc c hR h1 hc hfr hfp
    have hfx : get_fx_rate P c = 1 := by simp [get_fx_rate, hc, hfr, hfp]
    simp [get_safe_data, hR, h1, rowOf, fxApplied, hfx]

/-- C10 witness: a JPY-denominated quote whose FX pair lookup raises is
returned with its native price 7 and native market cap, labeled USD. -/
theorem curr_labeled_usd_witness :
    get_safe_data jpProvider ["7203".toList] true =
      [{ Symbol := displayOf "7203".toList, Raw := "7203".toList, Price := 7,
         MC_B := 9000000000 / 1000000000, Curr := "USD" }] :=
  (curr_labeled_usd jpProvider []).2 "7203".toList 7 9000000000 "JPY"
    rfl rfl (by decide) rfl rfl

end StockApp
